import Mathlib

/-!
Verification of the tdd-ai phase/spec state machine.

Shallow embedding of the Go core of the tdd-ai repository:
`internal/types/types.go` (session model), `internal/phase/machine.go`
(transition tables, expected test result), `internal/phase/blockers.go`
(blocker computation), `internal/reflection/reflection.go` (reflection
questions and answer validation), and the pure decision logic of the
`phase next`, `phase set` and `refactor reflect` commands in `cmd/phase.go`
and `cmd/refactor.go` (file I/O, argument parsing and terminal printing
stripped; the wall-clock timestamp that the Go code stamps on history
events is passed in as an explicit `now` argument).

Go `string`-typed enumerations (Phase, Mode, SpecStatus) are kept as
`String`, as in the source, so that unrecognized string values remain
representable.  Fallible Go functions returning `error` become
`Except String α`; a Go method that mutates the session in place and can
fail becomes a function `Session → Except String Session`, where an
`.error` result corresponds to the Go path that returns an error without
saving the session (the stored document, in particular its phase, is left
unchanged on that path).
-/

namespace TddAi

/-- Phase is a stage in the TDD cycle (Go: `type Phase string`). -/
abbrev Phase := String

def PhaseRed : Phase := "red"

def PhaseGreen : Phase := "green"

def PhaseRefactor : Phase := "refactor"

def PhaseDone : Phase := "done"

/-- Go `ValidPhases()`. -/
def ValidPhases : List Phase := [PhaseRed, PhaseGreen, PhaseRefactor, PhaseDone]

/-- Go `(p Phase) IsValid()`: membership in `ValidPhases`. -/
def Phase.IsValid (p : Phase) : Bool := ValidPhases.contains p

/-- Mode is the TDD workflow mode (Go: `type Mode string`). -/
abbrev Mode := String

def ModeGreenfield : Mode := "greenfield"

def ModeRetrofit : Mode := "retrofit"

/-- SpecStatus is the state of a spec (Go: `type SpecStatus string`). -/
abbrev SpecStatus := String

def SpecStatusActive : SpecStatus := "active"

def SpecStatusCompleted : SpecStatus := "completed"

/-- Go struct `Spec`. -/
structure Spec where
  id : Int
  description : String
  status : SpecStatus
deriving DecidableEq, Repr

/-- Go struct `ReflectionQuestion`. -/
structure ReflectionQuestion where
  id : Int
  question : String
  answer : String := ""
deriving DecidableEq, Repr

/-- Go struct `Event` (audit-trail entry; `Timestamp` is supplied by the
caller of the embedded commands instead of `time.Now()`). -/
structure Event where
  action : String
  fromPhase : String := ""
  toPhase : String := ""
  result : String := ""
  specCount : Int := 0
  specID : Int := 0
  timestamp : String := ""
deriving DecidableEq, Repr

/-- Go struct `Session`: the full state of a TDD session. -/
structure Session where
  phase : Phase
  mode : Mode := ""
  testCmd : String := ""
  lastTestResult : String := ""
  specs : List Spec := []
  nextID : Int := 1
  currentSpecID : Option Int := none
  iteration : Int := 0
  reflections : List ReflectionQuestion := []
  history : List Event := []
deriving DecidableEq, Repr

/-- Go `(s *Session) GetMode()`: the session mode, defaulting to greenfield
when unset. -/
def Session.GetMode (s : Session) : Mode :=
  if s.mode = "" then ModeGreenfield else s.mode

/-- Go `(s *Session) ActiveSpecs()`: the specs that are not yet completed. -/
def Session.ActiveSpecs (s : Session) : List Spec :=
  s.specs.filter (fun sp => sp.status == SpecStatusActive)

/-- Go `(s *Session) PendingReflections()`: reflection questions that have
not been answered. -/
def Session.PendingReflections (s : Session) : List ReflectionQuestion :=
  s.reflections.filter (fun r => r.answer == "")

/-- Go `(s *Session) AllReflectionsAnswered()`: true when every reflection
question has a non-empty answer (vacuously true for the empty list). -/
def Session.AllReflectionsAnswered (s : Session) : Bool :=
  s.reflections.all (fun r => r.answer != "")

/-- The loop of Go `(s *Session) AnswerReflection`: update the answer of the
first question carrying the given id, or `none` when no id matches. -/
def answerReflectionAux (rs : List ReflectionQuestion) (id : Int) (answer : String) :
    Option (List ReflectionQuestion) :=
  match rs with
  | [] => none
  | r :: rest =>
    if r.id == id then some ({ r with answer := answer } :: rest)
    else (answerReflectionAux rest id answer).map (fun rest2 => r :: rest2)

/-- Go `(s *Session) AnswerReflection(id, answer)`: sets the answer for a
reflection question by ID; error when the ID is not found. -/
def Session.AnswerReflection (s : Session) (id : Int) (answer : String) :
    Except String Session :=
  match answerReflectionAux s.reflections id answer with
  | some rs => .ok { s with reflections := rs }
  | none => .error ("reflection question " ++ toString id ++ " not found")

/-- The loop of Go `(s *Session) CompleteAllSpecs`: flip every ACTIVE spec
to COMPLETED, counting the flips. -/
def completeAllSpecsAux : List Spec → Nat × List Spec
  | [] => (0, [])
  | sp :: rest =>
    let p := completeAllSpecsAux rest
    if sp.status == SpecStatusActive then
      (p.1 + 1, { sp with status := SpecStatusCompleted } :: p.2)
    else
      (p.1, sp :: p.2)

/-- Go `(s *Session) CompleteAllSpecs()`: marks all active specs as
completed and returns the count. -/
def Session.CompleteAllSpecs (s : Session) : Nat × Session :=
  let p := completeAllSpecsAux s.specs
  (p.1, { s with specs := p.2 })

/-- Go map `transitions` in `internal/phase/machine.go`: valid TDD phase
progression for greenfield mode. -/
def transitions (p : Phase) : Option Phase :=
  if p = PhaseRed then some PhaseGreen
  else if p = PhaseGreen then some PhaseRefactor
  else if p = PhaseRefactor then some PhaseDone
  else none

/-- Go map `retrofitTransitions`: phase progression for retrofit mode
(skips green since the implementation already exists). -/
def retrofitTransitions (p : Phase) : Option Phase :=
  if p = PhaseRed then some PhaseRefactor
  else if p = PhaseRefactor then some PhaseDone
  else none

/-- Go `NextWithMode(current, mode)`: the next phase based on the session
mode, a terminal-state error at done, an unknown-phase error otherwise. -/
def NextWithMode (current : Phase) (mode : Mode) : Except String Phase :=
  let t := if mode = ModeRetrofit then retrofitTransitions else transitions
  match t current with
  | some nxt => .ok nxt
  | none =>
    if current = PhaseDone then
      .error "TDD cycle is complete; start a new session or add more specs"
    else
      .error ("unknown phase: \x22" ++ current ++ "\x22")

/-- Go `Next(current)`: greenfield-mode successor. -/
def Next (current : Phase) : Except String Phase :=
  NextWithMode current ModeGreenfield

/-- Go `ExpectedTestResult(p, mode)`: the test outcome expected before
leaving the given phase. -/
def ExpectedTestResult (p : Phase) (mode : Mode) : String :=
  if p = PhaseRed ∧ mode ≠ ModeRetrofit then "fail" else "pass"

/-- Go `NextInLoop(current, mode, hasRemainingSpecs)`: per-spec loop variant
of `NextWithMode`. -/
def NextInLoop (current : Phase) (mode : Mode) (hasRemainingSpecs : Bool) :
    Except String Phase :=
  if current = PhaseRefactor ∧ hasRemainingSpecs then .ok PhaseRed
  else NextWithMode current mode

/-- Go `CanTransition(from, to)`: greenfield-table edge or the
refactor-to-red loop edge.  The function takes no mode argument. -/
def CanTransition (p q : Phase) : Bool :=
  (transitions p == some q) || (p == PhaseRefactor && q == PhaseRed)

/-- The mismatch message of `checkTestResult` in
`internal/phase/blockers.go` (Go format string
`Test result a does not match expected b`, both arguments in single
quotes). -/
def testResultMismatchMsg (actual expected : String) : String :=
  "Test result \x27" ++ actual ++ "\x27 does not match expected \x27" ++ expected ++ "\x27"

/-- Go `checkTestResult(s, phase, mode)`: a blocker when the test result is
missing or does not match the expected result (the Go local `expected` is
inlined). -/
def checkTestResult (s : Session) (p : Phase) (mode : Mode) : List String :=
  if s.lastTestResult = "" then ["No test result recorded"]
  else if s.lastTestResult ≠ ExpectedTestResult p mode then
    [testResultMismatchMsg s.lastTestResult (ExpectedTestResult p mode)]
  else []

/-- The reflection blocker message of `GetBlockers` (Go format string
`N reflection questions unanswered`). -/
def reflectionBlockerMsg (n : Nat) : String :=
  toString n ++ " reflection questions unanswered"

/-- Go `GetBlockers(s)`: the conditions preventing advancement from the
current phase (Go switches on `s.Phase`; an unrecognized phase falls
through with no blockers). -/
def GetBlockers (s : Session) : List String :=
  if s.phase = PhaseRed then
    (if (s.ActiveSpecs).length = 0 then ["No active specs"] else [])
      ++ (if s.currentSpecID = none ∧ (s.ActiveSpecs).length > 0 then ["No spec selected"] else [])
      ++ checkTestResult s s.phase s.GetMode
  else if s.phase = PhaseGreen then
    checkTestResult s s.phase s.GetMode
  else if s.phase = PhaseRefactor then
    checkTestResult s s.phase s.GetMode
      ++ (if (s.PendingReflections).length > 0 then
            [reflectionBlockerMsg (s.PendingReflections).length]
          else [])
  else if s.phase = PhaseDone then
    ["Cannot advance past done"]
  else []

/-- Go `reflection.MinAnswerWords`. -/
def MinAnswerWords : Nat := 5

/-- Go `reflection.DefaultQuestions()`: the 7 structured reflection
questions with sequential IDs and empty answers. -/
def DefaultQuestions : List ReflectionQuestion :=
  [ { id := 1, question := "Can I make my test suite more expressive?" },
    { id := 2, question := "Does my test suite provide reliable feedback?" },
    { id := 3, question := "Are my tests isolated?" },
    { id := 4, question := "Can I reduce duplication in my test suite or implementation code?" },
    { id := 5, question := "Can I make my implementation code more descriptive?" },
    { id := 6, question := "Can I implement something more efficiently?" },
    { id := 7, question := "Should any new test scenarios be added to the test list based on what I learned?" } ]

/-- Character-list worker for `stringFields`: walks the characters,
accumulating the current token (reversed) and emitting it at each
whitespace run or at the end. -/
def splitFieldsAux : List Char → List Char → List String
  | [], acc => if acc = [] then [] else [String.mk acc.reverse]
  | c :: cs, acc =>
    if c.isWhitespace then
      if acc = [] then splitFieldsAux cs []
      else String.mk acc.reverse :: splitFieldsAux cs []
    else splitFieldsAux cs (c :: acc)

/-- Go `strings.Fields`: the whitespace-delimited tokens of a string —
maximal runs of non-whitespace characters, with no empty tokens. -/
def stringFields (s : String) : List String :=
  splitFieldsAux s.data []

/-- Go `reflection.ValidateAnswer(answer)`: error unless the answer has at
least `MinAnswerWords` whitespace-delimited words (the Go local `words` is
inlined). -/
def ValidateAnswer (answer : String) : Except String Unit :=
  if (stringFields answer).length < MinAnswerWords then
    .error ("answer must be at least " ++ toString MinAnswerWords
      ++ " words, got " ++ toString ((stringFields answer).length))
  else .ok ()

/-- The decision logic of the `tdd-ai refactor reflect` command
(`reflectCmd` in `cmd/refactor.go`): requires the refactor phase and a
non-empty answer, validates the answer length, stores it via
`Session.AnswerReflection`, and appends the audit event.  On any error the
session is not saved, so nothing is stored. -/
def reflectAnswer (s : Session) (id : Int) (answer : String) (now : String) :
    Except String Session :=
  if s.phase ≠ PhaseRefactor then
    .error ("not in refactor phase (current: " ++ s.phase
      ++ "). Reflections are only available during refactor")
  else if answer = "" then
    .error "--answer is required"
  else
    match ValidateAnswer answer with
    | .error e => .error e
    | .ok _ =>
      match s.AnswerReflection id answer with
      | .error e => .error e
      | .ok s1 =>
        .ok { s1 with history := s1.history
                ++ [{ action := "reflection_answer",
                      result := "q" ++ toString id, timestamp := now }] }

/-- Error of `phaseNextCmd` when advancing from red with no active specs. -/
def noActiveSpecsMsg : String :=
  "cannot advance from red phase: no active specs. Add specs with \x27tdd-ai spec add\x27"

/-- Error of `phaseNextCmd` for an `error` test result (infrastructure
failure, distinct from a genuine test failure). -/
def infraErrorMsg : String :=
  "cannot advance: last test run was an infrastructure/environment error (not a test failure). Fix the environment and re-run \x27tdd-ai test\x27"

/-- Error of `phaseNextCmd` for a test result other than pass/fail/error. -/
def invalidResultMsg (r : String) : String :=
  "--test-result must be \x27pass\x27 or \x27fail\x27, got \x22" ++ r ++ "\x22"

/-- Error of `phaseNextCmd` when the effective test result does not match
the expected one. -/
def mismatchAdvanceMsg (current expected actual : String) : String :=
  "cannot advance: " ++ current ++ " phase expects tests to " ++ expected
    ++ ", but got test result " ++ actual

/-- Error of `phaseNextCmd` when reflection questions remain unanswered. -/
def reflectionsUnansweredMsg (n : Nat) : String :=
  "cannot advance: " ++ toString n
    ++ " reflection question(s) unanswered. Use \x27tdd-ai refactor status\x27 to see them"

/-- The tail of `phaseNextCmd` after the test-result checks: block on
unanswered reflections in refactor, consume the last test result, compute
the successor phase, reload the default reflection questions when entering
refactor, and append the audit event.  The Go guard
`if s.LastTestResult != ""` before the clear is an identity no-op when the
result is already empty, so the clear is written unconditionally; the Go
sequence of in-place mutations becomes one record update. -/
def phaseNextFinish (s : Session) (current : Phase) (mode : Mode)
    (effectiveResult : String) (now : String) : Except String Session :=
  if current = PhaseRefactor ∧ s.reflections.length > 0 ∧ s.AllReflectionsAnswered = false then
    .error (reflectionsUnansweredMsg (s.PendingReflections).length)
  else
    match NextWithMode current mode with
    | .error e => .error e
    | .ok nxt =>
      .ok { s with
        lastTestResult := "",
        phase := nxt,
        reflections := (if nxt = PhaseRefactor then DefaultQuestions else s.reflections),
        history := s.history
          ++ [{ action := "phase_next", fromPhase := current, toPhase := nxt,
                result := effectiveResult, timestamp := now }] }

/-- The effective test result of `phaseNextCmd`: the explicit
`--test-result` flag when set, otherwise the session's recorded
`LastTestResult` (Go: `effectiveResult := testResultFlag; if
effectiveResult == "" && s.LastTestResult != "" { effectiveResult =
s.LastTestResult }`). -/
def effectiveResultOf (s : Session) (testResultFlag : String) : String :=
  if testResultFlag = "" ∧ s.lastTestResult ≠ "" then s.lastTestResult else testResultFlag

/-- The decision logic of the `tdd-ai phase next` command (`phaseNextCmd`
in `cmd/phase.go`).  `testResultFlag` is the `--test-result` flag (empty
when absent).  The effective result is the flag if set, otherwise the
session's last recorded result; with no effective result at all the Go
code only prints a warning and proceeds.  On any error the session is not
saved, so its phase is unchanged. -/
def phaseNext (s : Session) (testResultFlag : String) (now : String) :
    Except String Session :=
  if s.phase = PhaseRed ∧ (s.ActiveSpecs).length = 0 then
    .error noActiveSpecsMsg
  else if effectiveResultOf s testResultFlag ≠ "" then
    if effectiveResultOf s testResultFlag = "error" then .error infraErrorMsg
    else if effectiveResultOf s testResultFlag ≠ "pass" ∧
        effectiveResultOf s testResultFlag ≠ "fail" then
      .error (invalidResultMsg (effectiveResultOf s testResultFlag))
    else if effectiveResultOf s testResultFlag ≠ ExpectedTestResult s.phase s.GetMode then
      .error (mismatchAdvanceMsg s.phase (ExpectedTestResult s.phase s.GetMode)
        (effectiveResultOf s testResultFlag))
    else phaseNextFinish s s.phase s.GetMode (effectiveResultOf s testResultFlag) now
  else
    phaseNextFinish s s.phase s.GetMode (effectiveResultOf s testResultFlag) now

/-- The decision logic of the `tdd-ai phase set` command (`phaseSetCmd` in
`cmd/phase.go`): validate the phase name, override the phase, load the
default reflection questions when entering refactor with an empty
reflection list, and append the audit event. -/
def phaseSet (s : Session) (arg : String) (now : String) : Except String Session :=
  if Phase.IsValid arg = false then
    .error ("invalid phase \x22" ++ arg ++ "\x22. Valid phases: red, green, refactor, done")
  else
    .ok { s with
      phase := arg,
      reflections := (if arg = PhaseRefactor ∧ s.reflections.length = 0 then
          DefaultQuestions
        else s.reflections),
      history := s.history
        ++ [{ action := "phase_set", fromPhase := s.phase, toPhase := arg, timestamp := now }] }

/-! Concrete sessions used to instantiate the theorems below. -/

/-- Scenario A of the specification: a greenfield session in RED with no
specs and no recorded test result. -/
def scenarioA : Session := { phase := PhaseRed }

/-- A red-phase greenfield session with one active, selected spec and a
recorded failing test (Scenario B of the specification). -/
def sessionB : Session :=
  { phase := PhaseRed,
    specs := [{ id := 1, description := "spec one", status := SpecStatusActive }],
    currentSpecID := some 1, nextID := 2, lastTestResult := "fail" }

/-- The session `phaseNext` produces from `sessionB` with no flag. -/
def sessionBNext : Session := ((phaseNext sessionB "" "").toOption).getD sessionB

/-- A red-phase session with an active, selected spec and no recorded test
result. -/
def sessionNoResult : Session :=
  { phase := PhaseRed,
    specs := [{ id := 1, description := "spec one", status := SpecStatusActive }],
    currentSpecID := some 1, nextID := 2 }

/-- A green-phase session with passing tests whose reflection list is
populated and already answered. -/
def sessionAnsweredGreen : Session :=
  { phase := PhaseGreen, lastTestResult := "pass",
    specs := [{ id := 1, description := "spec one", status := SpecStatusActive }],
    currentSpecID := some 1, nextID := 2,
    reflections := [{ id := 1, question := "Can I make my test suite more expressive?",
                      answer := "yes the tests are already expressive enough" }] }

/-- A green-phase session whose last test run was an infrastructure
error. -/
def sessionErr : Session := { phase := PhaseGreen, lastTestResult := "error" }

/-- A refactor-phase session with the default reflection questions freshly
loaded. -/
def sessionRefactor : Session := { phase := PhaseRefactor, reflections := DefaultQuestions }

/-! Shared helper lemmas. -/

/-- A session whose reflections are all answered has no pending
reflections. -/
theorem pendingReflections_eq_nil (s : Session) (h : s.AllReflectionsAnswered = true) :
    s.PendingReflections = [] := by
  rw [Session.AllReflectionsAnswered, List.all_eq_true] at h
  rw [Session.PendingReflections, List.filter_eq_nil_iff]
  intro r hr
  have := h r hr
  simp only [bne_iff_ne, ne_eq] at this
  simp [this]

/-- `NextWithMode` signals the terminal-state error at done in every
mode. -/
theorem NextWithMode_done (m : Mode) :
    NextWithMode PhaseDone m =
      .error "TDD cycle is complete; start a new session or add more specs" := by
  by_cases hm : m = ModeRetrofit <;>
    simp [NextWithMode, hm, retrofitTransitions, transitions, PhaseDone, PhaseRed,
      PhaseGreen, PhaseRefactor]

/-- `answerReflectionAux` fails exactly when no loaded question carries the
requested id. -/
theorem answerReflectionAux_none_iff (rs : List ReflectionQuestion) (id : Int) (a : String) :
    answerReflectionAux rs id a = none ↔ ∀ r ∈ rs, r.id ≠ id := by
  induction rs with
  | nil => simp [answerReflectionAux]
  | cons r rest ih =>
    by_cases h : r.id = id
    · simp [answerReflectionAux, h]
    · simp [answerReflectionAux, h, ih]

/-- A successful `answerReflectionAux` splits the list at the first
question carrying the id and replaces only its answer. -/
theorem answerReflectionAux_some (rs : List ReflectionQuestion) (id : Int) (a : String)
    (rs' : List ReflectionQuestion) (h : answerReflectionAux rs id a = some rs') :
    ∃ pre r post, rs = pre ++ r :: post ∧ (∀ x ∈ pre, x.id ≠ id) ∧ r.id = id ∧
      rs' = pre ++ { r with answer := a } :: post := by
  induction rs generalizing rs' with
  | nil => simp [answerReflectionAux] at h
  | cons r rest ih =>
    by_cases hid : r.id = id
    · rw [answerReflectionAux, if_pos (by simp [hid])] at h
      simp only [Option.some.injEq] at h
      exact ⟨[], r, rest, rfl, by simp, hid, h.symm⟩
    · rw [answerReflectionAux, if_neg (by simp [hid])] at h
      match hrec : answerReflectionAux rest id a with
      | none => rw [hrec] at h; simp at h
      | some rest2 =>
        rw [hrec] at h
        simp only [Option.map, Option.some.injEq] at h
        obtain ⟨pre, r1, post, hsplit, hpre, hr1, hres⟩ := ih rest2 hrec
        exact ⟨r :: pre, r1, post, by simp [hsplit], by
          intro x hx
          rcases List.mem_cons.mp hx with hx | hx
          · exact hx ▸ hid
          · exact hpre x hx, hr1, by simp [← h, hres]⟩

/-- `find?` skips a prefix on which the predicate is false. -/
theorem find?_append_of_false {α : Type} (p : α → Bool) (pre l : List α)
    (h : ∀ x ∈ pre, p x = false) : (pre ++ l).find? p = l.find? p := by
  induction pre with
  | nil => rfl
  | cons x rest ih =>
    have hx := h x (by simp)
    simp only [List.cons_append, List.find?]
    rw [hx]
    exact ih (fun y hy => h y (by simp [hy]))

/-! C3. -/

/-- C3: the phase transition function maps, in GREENFIELD mode, RED to
GREEN, GREEN to REFACTOR, and REFACTOR to DONE; in RETROFIT mode, RED to
REFACTOR and REFACTOR to DONE; for DONE in either mode it returns the
terminal-state error; for any phase outside the mode's table domain (GREEN
under RETROFIT, or an unrecognized phase string) it returns an unknown
phase error. -/
theorem NextWithMode_table_spec :
    NextWithMode PhaseRed ModeGreenfield = .ok PhaseGreen ∧
    NextWithMode PhaseGreen ModeGreenfield = .ok PhaseRefactor ∧
    NextWithMode PhaseRefactor ModeGreenfield = .ok PhaseDone ∧
    NextWithMode PhaseRed ModeRetrofit = .ok PhaseRefactor ∧
    NextWithMode PhaseRefactor ModeRetrofit = .ok PhaseDone ∧
    (∀ m : Mode, NextWithMode PhaseDone m =
      .error "TDD cycle is complete; start a new session or add more specs") ∧
    NextWithMode PhaseGreen ModeRetrofit =
      .error ("unknown phase: \x22" ++ PhaseGreen ++ "\x22") ∧
    (∀ (p : Phase) (m : Mode),
      p ≠ PhaseRed → p ≠ PhaseGreen → p ≠ PhaseRefactor → p ≠ PhaseDone →
      NextWithMode p m = .error ("unknown phase: \x22" ++ p ++ "\x22")) := by
  refine ⟨rfl, rfl, rfl, rfl, rfl, NextWithMode_done, rfl, ?_⟩
  intro p m h1 h2 h3 h4
  by_cases hm : m = ModeRetrofit <;>
    simp [NextWithMode, hm, retrofitTransitions, transitions, h1, h2, h3, h4]

/-! C4. -/

/-- C4 counterexample: at the terminal phase DONE the expected-result
function is not undefined/empty — it returns "pass". -/
theorem ExpectedTestResult_done_counterexample :
    ExpectedTestResult PhaseDone ModeGreenfield = "pass" ∧
    ExpectedTestResult PhaseDone ModeGreenfield ≠ "" := by
  constructor <;> decide

/-- C4 (amended): ExpectedTestResult(RED, GREENFIELD) = "fail";
ExpectedTestResult(RED, RETROFIT) = "pass"; GREEN and REFACTOR expect
"pass" for every mode; and at DONE the function is total and also returns
"pass" (there is no undefined/empty case). -/
theorem ExpectedTestResult_spec :
    ExpectedTestResult PhaseRed ModeGreenfield = "fail" ∧
    ExpectedTestResult PhaseRed ModeRetrofit = "pass" ∧
    (∀ m : Mode, ExpectedTestResult PhaseGreen m = "pass") ∧
    (∀ m : Mode, ExpectedTestResult PhaseRefactor m = "pass") ∧
    (∀ m : Mode, ExpectedTestResult PhaseDone m = "pass") := by
  refine ⟨by decide, by decide, ?_, ?_, ?_⟩ <;> intro m <;>
    simp [ExpectedTestResult, PhaseGreen, PhaseRefactor, PhaseDone, PhaseRed]

/-! C8. -/

/-- C8 counterexample: the retrofit transition table maps RED to REFACTOR,
yet `CanTransition` (which consults only the greenfield table plus the
loop-back edge and takes no mode) rejects RED to REFACTOR. -/
theorem CanTransition_retrofit_counterexample :
    CanTransition PhaseRed PhaseRefactor = false ∧
    retrofitTransitions PhaseRed = some PhaseRefactor := by
  constructor <;> decide

/-- C8 (amended): `CanTransition` is mode-independent — it returns true
exactly for the GREENFIELD table edges RED to GREEN, GREEN to REFACTOR,
REFACTOR to DONE, plus the loop-back edge REFACTOR to RED; in particular
the retrofit edge RED to REFACTOR is not accepted. -/
theorem CanTransition_spec (p q : Phase) :
    CanTransition p q = true ↔
      ((p = PhaseRed ∧ q = PhaseGreen) ∨ (p = PhaseGreen ∧ q = PhaseRefactor) ∨
       (p = PhaseRefactor ∧ q = PhaseDone) ∨ (p = PhaseRefactor ∧ q = PhaseRed)) := by
  have htr : transitions p = some q ↔
      ((p = PhaseRed ∧ q = PhaseGreen) ∨ (p = PhaseGreen ∧ q = PhaseRefactor) ∨
        (p = PhaseRefactor ∧ q = PhaseDone)) := by
    by_cases h1 : p = PhaseRed
    · subst h1
      rw [transitions, if_pos (show PhaseRed = PhaseRed from rfl)]
      constructor
      · intro h; exact Or.inl ⟨rfl, (Option.some.inj h).symm⟩
      · rintro (⟨_, h⟩ | ⟨h, _⟩ | ⟨h, _⟩)
        · rw [h]
        · exact absurd h (show ¬PhaseRed = PhaseGreen by decide)
        · exact absurd h (show ¬PhaseRed = PhaseRefactor by decide)
    · by_cases h2 : p = PhaseGreen
      · subst h2
        rw [transitions, if_neg (show ¬PhaseGreen = PhaseRed by decide),
          if_pos (show PhaseGreen = PhaseGreen from rfl)]
        constructor
        · intro h; exact Or.inr (Or.inl ⟨rfl, (Option.some.inj h).symm⟩)
        · rintro (⟨h, _⟩ | ⟨_, h⟩ | ⟨h, _⟩)
          · exact absurd h (show ¬PhaseGreen = PhaseRed by decide)
          · rw [h]
          · exact absurd h (show ¬PhaseGreen = PhaseRefactor by decide)
      · by_cases h3 : p = PhaseRefactor
        · subst h3
          rw [transitions, if_neg (show ¬PhaseRefactor = PhaseRed by decide),
            if_neg (show ¬PhaseRefactor = PhaseGreen by decide),
            if_pos (show PhaseRefactor = PhaseRefactor from rfl)]
          constructor
          · intro h; exact Or.inr (Or.inr ⟨rfl, (Option.some.inj h).symm⟩)
          · rintro (⟨h, _⟩ | ⟨h, _⟩ | ⟨_, h⟩)
            · exact absurd h (show ¬PhaseRefactor = PhaseRed by decide)
            · exact absurd h (show ¬PhaseRefactor = PhaseGreen by decide)
            · rw [h]
        · rw [transitions, if_neg h1, if_neg h2, if_neg h3]
          simp [h1, h2, h3]
  rw [CanTransition, Bool.or_eq_true, Bool.and_eq_true]
  simp only [beq_iff_eq, htr]
  tauto

/-! C9. -/

/-- C9: a question counts as answered exactly when its stored answer is
non-empty — `PendingReflections` keeps exactly the questions with an
empty stored answer, `AllReflectionsAnswered` holds exactly when every
stored answer is non-empty (vacuously for the empty list), and the
unvalidated `Session.AnswerReflection` with the empty string returns the
question to the pending set. -/
theorem reflections_answered_spec :
    (∀ (s : Session) (r : ReflectionQuestion),
        r ∈ s.PendingReflections ↔ r ∈ s.reflections ∧ r.answer = "") ∧
    (∀ s : Session, s.AllReflectionsAnswered = true ↔ ∀ r ∈ s.reflections, r.answer ≠ "") ∧
    (∀ s : Session, s.reflections = [] → s.AllReflectionsAnswered = true) ∧
    (∀ (s : Session) (id : Int) (s1 : Session),
        s.AnswerReflection id "" = .ok s1 →
        ∃ r ∈ s1.PendingReflections, r.id = id) := by
  refine ⟨?_, ?_, ?_, ?_⟩
  · intro s r
    simp [Session.PendingReflections, List.mem_filter]
  · intro s
    simp [Session.AllReflectionsAnswered, List.all_eq_true]
  · intro s h
    simp [Session.AllReflectionsAnswered, h]
  · intro s id s1 h
    rw [Session.AnswerReflection] at h
    match haux : answerReflectionAux s.reflections id "" with
    | none => rw [haux] at h; simp at h
    | some rs =>
      rw [haux] at h
      simp only [Except.ok.injEq] at h
      obtain ⟨pre, r, post, _, _, hr, hres⟩ := answerReflectionAux_some _ _ _ _ haux
      refine ⟨{ r with answer := "" }, ?_, hr⟩
      rw [← h]
      simp [Session.PendingReflections, List.mem_filter, hres]

/-! C10. -/

/-- COMPLETED and ACTIVE are distinct statuses. -/
theorem completed_ne_active : SpecStatusCompleted ≠ SpecStatusActive := by decide

/-- A second pass of the completion loop flips nothing. -/
theorem completeAllSpecsAux_idem (l : List Spec) :
    completeAllSpecsAux (completeAllSpecsAux l).2 = (0, (completeAllSpecsAux l).2) := by
  induction l with
  | nil => rfl
  | cons sp rest ih =>
    by_cases h : sp.status = SpecStatusActive <;>
      simp [completeAllSpecsAux, beq_iff_eq, h, ih, completed_ne_active]

/-- After the completion loop every spec whose status was one of the two
legal values is COMPLETED. -/
theorem completeAllSpecsAux_completed : ∀ l : List Spec,
    (∀ sp ∈ l, sp.status = SpecStatusActive ∨ sp.status = SpecStatusCompleted) →
    ∀ sp ∈ (completeAllSpecsAux l).2, sp.status = SpecStatusCompleted := by
  intro l
  induction l with
  | nil => intro _; simp [completeAllSpecsAux]
  | cons sp rest ih =>
    intro hl x hx
    have hsp := hl sp (by simp)
    have hrest : ∀ y ∈ rest, y.status = SpecStatusActive ∨ y.status = SpecStatusCompleted :=
      fun y hy => hl y (by simp [hy])
    by_cases h : sp.status = SpecStatusActive
    · simp only [completeAllSpecsAux, beq_iff_eq, h, if_true, eq_self_iff_true,
        List.mem_cons] at hx
      rcases hx with hx | hx
      · rw [hx]
      · exact ih hrest x hx
    · simp only [completeAllSpecsAux, beq_iff_eq, h, if_false, List.mem_cons] at hx
      rcases hx with hx | hx
      · rw [hx]; exact (hsp.resolve_left h)
      · exact ih hrest x hx

/-- The completion loop leaves no ACTIVE spec behind. -/
theorem completeAllSpecsAux_no_active (l : List Spec) :
    ((completeAllSpecsAux l).2).filter (fun sp => sp.status == SpecStatusActive) = [] := by
  induction l with
  | nil => rfl
  | cons sp rest ih =>
    by_cases h : sp.status = SpecStatusActive <;>
      simp [completeAllSpecsAux, beq_iff_eq, h, ih, completed_ne_active, List.filter_cons]

/-- The completion loop never removes a spec and never changes an id or a
description. -/
theorem completeAllSpecsAux_preserves (l : List Spec) :
    ((completeAllSpecsAux l).2).map (fun sp => (sp.id, sp.description)) =
      l.map (fun sp => (sp.id, sp.description)) := by
  induction l with
  | nil => rfl
  | cons sp rest ih =>
    by_cases h : sp.status = SpecStatusActive <;>
      simp [completeAllSpecsAux, h, ih]

/-- C10: for a session whose spec statuses are legal, one call to
`CompleteAllSpecs` completes every spec and empties `ActiveSpecs`; a
second consecutive call returns 0 and leaves the session unchanged; and
the operation never removes a spec and never changes an id or a
description. -/
theorem CompleteAllSpecs_idempotent (s : Session)
    (hs : ∀ sp ∈ s.specs, sp.status = SpecStatusActive ∨ sp.status = SpecStatusCompleted) :
    (∀ sp ∈ ((s.CompleteAllSpecs).2).specs, sp.status = SpecStatusCompleted) ∧
    ((s.CompleteAllSpecs).2).ActiveSpecs = [] ∧
    ((s.CompleteAllSpecs).2).CompleteAllSpecs = (0, (s.CompleteAllSpecs).2) ∧
    ((s.CompleteAllSpecs).2).specs.map (fun sp => (sp.id, sp.description)) =
      s.specs.map (fun sp => (sp.id, sp.description)) ∧
    ((s.CompleteAllSpecs).2).specs.length = s.specs.length := by
  have hspecs : ((s.CompleteAllSpecs).2).specs = (completeAllSpecsAux s.specs).2 := rfl
  refine ⟨completeAllSpecsAux_completed _ hs, ?_, ?_, completeAllSpecsAux_preserves _, ?_⟩
  · rw [Session.ActiveSpecs, hspecs]
    exact completeAllSpecsAux_no_active s.specs
  · simp [Session.CompleteAllSpecs, completeAllSpecsAux_idem]
  · rw [hspecs,
      ← List.length_map (completeAllSpecsAux s.specs).2 (fun sp => (sp.id, sp.description)),
      completeAllSpecsAux_preserves, List.length_map]

/-! Inversion lemmas for the phase-advancement command. -/

/-- The expected test result is always pass or fail, never empty and never
the error classification. -/
theorem ExpectedTestResult_pass_or_fail (p : Phase) (m : Mode) :
    ExpectedTestResult p m = "pass" ∨ ExpectedTestResult p m = "fail" := by
  rw [ExpectedTestResult]
  split
  · exact Or.inr rfl
  · exact Or.inl rfl

/-- Inversion of a successful `phaseNextFinish`: the new phase is the table
successor, a refactor advancement had no pending reflections, and the
reflection list is reloaded exactly when the successor is refactor. -/
theorem phaseNextFinish_ok (s : Session) (current : Phase) (mode : Mode)
    (eff now : String) (s1 : Session)
    (h : phaseNextFinish s current mode eff now = .ok s1) :
    NextWithMode current mode = .ok s1.phase ∧
    (current = PhaseRefactor → s.PendingReflections = []) ∧
    s1.reflections = (if s1.phase = PhaseRefactor then DefaultQuestions else s.reflections) := by
  rw [phaseNextFinish] at h
  by_cases hc : current = PhaseRefactor ∧ s.reflections.length > 0 ∧
      s.AllReflectionsAnswered = false
  · rw [if_pos hc] at h
    exact Except.noConfusion h
  · rw [if_neg hc] at h
    have hpend : current = PhaseRefactor → s.PendingReflections = [] := by
      intro hcur
      by_cases hlen : s.reflections.length > 0
      · by_cases hall : s.AllReflectionsAnswered = false
        · exact absurd ⟨hcur, hlen, hall⟩ hc
        · refine pendingReflections_eq_nil s ?_
          cases hb : s.AllReflectionsAnswered
          · exact absurd hb hall
          · rfl
      · have hnil : s.reflections = [] := by
          cases hl : s.reflections with
          | nil => rfl
          | cons x xs => rw [hl] at hlen; exact absurd (by simp) hlen
        simp [Session.PendingReflections, hnil]
    cases hnm : NextWithMode current mode with
    | error e =>
      rw [hnm] at h
      exact Except.noConfusion h
    | ok nxt =>
      rw [hnm] at h
      simp only [Except.ok.injEq] at h
      subst h
      exact ⟨rfl, hpend, rfl⟩

/-- Inversion of a successful `phaseNext`: red required active specs, a
non-empty effective result matched the expected one (and was pass or
fail), and the run reached `phaseNextFinish` successfully. -/
theorem phaseNext_ok (s : Session) (flag now : String) (s1 : Session)
    (h : phaseNext s flag now = .ok s1) :
    ¬(s.phase = PhaseRed ∧ (s.ActiveSpecs).length = 0) ∧
    (effectiveResultOf s flag ≠ "" →
      effectiveResultOf s flag = ExpectedTestResult s.phase s.GetMode ∧
      (effectiveResultOf s flag = "pass" ∨ effectiveResultOf s flag = "fail")) ∧
    phaseNextFinish s s.phase s.GetMode (effectiveResultOf s flag) now = .ok s1 := by
  rw [phaseNext] at h
  by_cases h0 : s.phase = PhaseRed ∧ (s.ActiveSpecs).length = 0
  · rw [if_pos h0] at h; exact Except.noConfusion h
  · rw [if_neg h0] at h
    by_cases he : effectiveResultOf s flag ≠ ""
    · rw [if_pos he] at h
      by_cases herr : effectiveResultOf s flag = "error"
      · rw [if_pos herr] at h; exact Except.noConfusion h
      · rw [if_neg herr] at h
        by_cases hval : effectiveResultOf s flag ≠ "pass" ∧ effectiveResultOf s flag ≠ "fail"
        · rw [if_pos hval] at h; exact Except.noConfusion h
        · rw [if_neg hval] at h
          by_cases hmat : effectiveResultOf s flag ≠ ExpectedTestResult s.phase s.GetMode
          · rw [if_pos hmat] at h; exact Except.noConfusion h
          · rw [if_neg hmat] at h
            refine ⟨h0, fun _ => ⟨not_not.mp hmat, ?_⟩, h⟩
            by_cases hp : effectiveResultOf s flag = "pass"
            · exact Or.inl hp
            · by_cases hf : effectiveResultOf s flag = "fail"
              · exact Or.inr hf
              · exact absurd ⟨hp, hf⟩ hval
    · rw [if_neg he] at h
      exact ⟨h0, fun hne => absurd hne he, h⟩

/-! C1. -/

/-- C1: in phase RED the blockers come in order — "No active specs" when
there are no ACTIVE specs, then "No spec selected" when no current spec is
set although an ACTIVE spec exists, then the test-result blocker ("No test
result recorded" when the result is empty, otherwise the mismatch message
when it differs from the expected result). -/
theorem GetBlockers_red_spec (s : Session) (h : s.phase = PhaseRed) :
    GetBlockers s =
      (if s.ActiveSpecs = [] then ["No active specs"] else [])
        ++ (if s.currentSpecID = none ∧ s.ActiveSpecs ≠ [] then ["No spec selected"] else [])
        ++ (if s.lastTestResult = "" then ["No test result recorded"]
            else if s.lastTestResult ≠ ExpectedTestResult PhaseRed s.GetMode then
              [testResultMismatchMsg s.lastTestResult (ExpectedTestResult PhaseRed s.GetMode)]
            else []) := by
  rw [GetBlockers, if_pos h, h, checkTestResult]
  simp only [List.length_eq_zero, gt_iff_lt, List.length_pos]

/-- C1 witness: Scenario A — a greenfield session in RED with 0 specs and
no recorded test result yields exactly the two blockers. -/
theorem GetBlockers_red_spec_witness :
    scenarioA.phase = PhaseRed ∧
    GetBlockers scenarioA = ["No active specs", "No test result recorded"] :=
  ⟨rfl, by rw [GetBlockers_red_spec scenarioA rfl]; rfl⟩

/-! C2. -/

/-- C2 counterexample: a RED session with a selected active spec and no
recorded test result has the non-empty blocker list
["No test result recorded"], yet `phase next` (with no explicit result)
advances to GREEN instead of refusing. -/
theorem phaseNext_ignores_blockers_counterexample :
    GetBlockers sessionNoResult = ["No test result recorded"] ∧
    (phaseNext sessionNoResult "" "").isOk = true ∧
    (phaseNext sessionNoResult "" "").map (fun s1 => s1.phase) = .ok PhaseGreen :=
  ⟨rfl, rfl, rfl⟩

/-- C2 (amended): a successful advancement always moves along the mode's
transition table (so DONE never advances and no phase is skipped or
forced), and — when no explicit test result is supplied — succeeds only
if every outstanding blocker is "No test result recorded" or "No spec
selected"; every other blocker (no active specs, a mismatched recorded
result, unanswered reflections, the DONE terminal blocker) forces a
refusal, which leaves the stored session unchanged.  The missing-result
and no-spec-selected blockers are not enforced by the advancement
command: it warns and advances. -/
theorem phaseNext_enforced_blockers (s : Session) (flag now : String) (s1 : Session)
    (h : phaseNext s flag now = .ok s1) :
    NextWithMode s.phase s.GetMode = .ok s1.phase ∧
    s.phase ≠ PhaseDone ∧
    (flag = "" → ∀ b ∈ GetBlockers s,
      b = "No test result recorded" ∨ b = "No spec selected") := by
  obtain ⟨h0, heff, hfin⟩ := phaseNext_ok s flag now s1 h
  obtain ⟨hnm, hpend, _⟩ := phaseNextFinish_ok s s.phase s.GetMode _ now s1 hfin
  have hdone : s.phase ≠ PhaseDone := by
    intro hd
    rw [hd, NextWithMode_done] at hnm
    exact Except.noConfusion hnm
  refine ⟨hnm, hdone, ?_⟩
  intro hflag b hb
  have htest : b ∈ checkTestResult s s.phase s.GetMode → b = "No test result recorded" := by
    intro hbt
    rw [checkTestResult] at hbt
    by_cases hl : s.lastTestResult = ""
    · rw [if_pos hl] at hbt
      simpa using hbt
    · rw [if_neg hl] at hbt
      have heq : effectiveResultOf s flag = s.lastTestResult := by
        rw [effectiveResultOf, if_pos ⟨hflag, hl⟩]
      have hne : effectiveResultOf s flag ≠ "" := by rw [heq]; exact hl
      have hexp := (heff hne).1
      rw [heq] at hexp
      rw [if_neg (not_not_intro hexp)] at hbt
      exact absurd hbt (List.not_mem_nil b)
  by_cases hred : s.phase = PhaseRed
  · rw [GetBlockers, if_pos hred] at hb
    rcases List.mem_append.mp hb with hb12 | hb3
    · rcases List.mem_append.mp hb12 with hb1 | hb2
      · by_cases hz : (s.ActiveSpecs).length = 0
        · exact absurd ⟨hred, hz⟩ h0
        · rw [if_neg hz] at hb1; exact absurd hb1 (List.not_mem_nil b)
      · by_cases hsel : s.currentSpecID = none ∧ (s.ActiveSpecs).length > 0
        · rw [if_pos hsel] at hb2
          exact Or.inr (by simpa using hb2)
        · rw [if_neg hsel] at hb2; exact absurd hb2 (List.not_mem_nil b)
    · exact Or.inl (htest hb3)
  · by_cases hgreen : s.phase = PhaseGreen
    · rw [GetBlockers, if_neg hred, if_pos hgreen] at hb
      exact Or.inl (htest hb)
    · by_cases hrefac : s.phase = PhaseRefactor
      · rw [GetBlockers, if_neg hred, if_neg hgreen, if_pos hrefac] at hb
        rcases List.mem_append.mp hb with hb1 | hb2
        · exact Or.inl (htest hb1)
        · rw [hpend hrefac] at hb2
          simp at hb2
      · rw [GetBlockers, if_neg hred, if_neg hgreen, if_neg hrefac, if_neg hdone] at hb
        exact absurd hb (List.not_mem_nil b)

/-- C2 witness: Scenario B — a blocker-free advancement from RED to GREEN,
with the conclusion instantiated at `sessionB`. -/
theorem phaseNext_enforced_blockers_witness :
    phaseNext sessionB "" "" = .ok sessionBNext ∧
    (NextWithMode sessionB.phase sessionB.GetMode = .ok sessionBNext.phase ∧
     sessionB.phase ≠ PhaseDone ∧
     (("" : String) = "" → ∀ b ∈ GetBlockers sessionB,
       b = "No test result recorded" ∨ b = "No spec selected")) :=
  ⟨rfl, phaseNext_enforced_blockers sessionB "" "" sessionBNext rfl⟩

/-! C6. -/

/-- C6 counterexample: a GREEN session whose reflection list is populated
and answered advances normally into REFACTOR, and the advancement replaces
the list with the fresh default questions — the recorded answer is
erased. -/
theorem phaseNext_resets_reflections_counterexample :
    sessionAnsweredGreen.reflections ≠ [] ∧
    (∃ r ∈ sessionAnsweredGreen.reflections, r.answer ≠ "") ∧
    (phaseNext sessionAnsweredGreen "" "").map (fun s1 => s1.phase) = .ok PhaseRefactor ∧
    (phaseNext sessionAnsweredGreen "" "").map (fun s1 => s1.reflections) =
      .ok DefaultQuestions ∧
    DefaultQuestions ≠ sessionAnsweredGreen.reflections := by
  refine ⟨by decide, by decide, rfl, rfl, by decide⟩

/-- C6 (amended): a manual phase override (`phase set`) entering REFACTOR
is a no-op on a non-empty reflection list, preserving questions and
answers; but normal advancement (`phase next`) into REFACTOR always
replaces the list with the fresh default questions, erasing any previous
answers. -/
theorem reflection_reentry_spec :
    (∀ (s : Session) (arg now : String) (s1 : Session),
        s.reflections ≠ [] → phaseSet s arg now = .ok s1 →
        s1.reflections = s.reflections) ∧
    (∀ (s : Session) (flag now : String) (s1 : Session),
        phaseNext s flag now = .ok s1 → s1.phase = PhaseRefactor →
        s1.reflections = DefaultQuestions) := by
  constructor
  · intro s arg now s1 hne h
    rw [phaseSet] at h
    by_cases hv : Phase.IsValid arg = false
    · rw [if_pos hv] at h; exact Except.noConfusion h
    · rw [if_neg hv] at h
      simp only [Except.ok.injEq] at h
      subst h
      show (if arg = PhaseRefactor ∧ s.reflections.length = 0 then DefaultQuestions
            else s.reflections) = s.reflections
      rw [if_neg]
      rintro ⟨_, hlen⟩
      exact hne (List.length_eq_zero.mp hlen)
  · intro s flag now s1 h href
    obtain ⟨_, _, hfin⟩ := phaseNext_ok s flag now s1 h
    obtain ⟨_, _, hrefl⟩ := phaseNextFinish_ok s s.phase s.GetMode _ now s1 hfin
    rw [hrefl, if_pos href]

/-! C7. -/

/-- The advancement mismatch message (whose last character is the final
letter of the actual result "error") differs from the infrastructure-error
message and from the no-active-specs message (which both end in a quote),
whatever phase and expected value are interpolated. -/
theorem mismatchAdvanceMsg_ne_advance_errors (c e : String) :
    mismatchAdvanceMsg c e "error" ≠ infraErrorMsg ∧
    mismatchAdvanceMsg c e "error" ≠ noActiveSpecsMsg := by
  have hlast : ((mismatchAdvanceMsg c e "error").data).getLast? = some 'r' := by
    simp only [mismatchAdvanceMsg, String.data_append, List.getLast?_append]
    rfl
  refine ⟨fun h => ?_, fun h => ?_⟩
  · rw [h] at hlast; exact absurd hlast (by decide)
  · rw [h] at hlast; exact absurd hlast (by decide)

/-- C7: whenever the test result used for the decision — the supplied flag
or, with no flag, the recorded result — is "error", advancement is refused
with an error that is never the pass/fail mismatch message; a recorded
"error" always fires the test-result blocker (as a mismatch against the
expected result, which is only ever "pass" or "fail"). -/
theorem errorResult_blocks_advance (s : Session) (flag now : String)
    (h : flag = "error" ∨ (flag = "" ∧ s.lastTestResult = "error")) :
    (∃ e, phaseNext s flag now = .error e ∧
      ∀ (c x : String), e ≠ mismatchAdvanceMsg c x "error") ∧
    (s.lastTestResult = "error" → ∀ (p : Phase) (m : Mode),
      checkTestResult s p m = [testResultMismatchMsg "error" (ExpectedTestResult p m)]) ∧
    (∀ (p : Phase) (m : Mode),
      ExpectedTestResult p m = "pass" ∨ ExpectedTestResult p m = "fail") := by
  have heff : effectiveResultOf s flag = "error" := by
    rcases h with h1 | ⟨h1, h2⟩
    · rw [effectiveResultOf, if_neg, h1]
      rintro ⟨hf, _⟩
      rw [h1] at hf
      exact absurd hf (by decide)
    · rw [effectiveResultOf, if_pos ⟨h1, by rw [h2]; decide⟩, h2]
  refine ⟨?_, ?_, ExpectedTestResult_pass_or_fail⟩
  · rw [phaseNext]
    by_cases h0 : s.phase = PhaseRed ∧ (s.ActiveSpecs).length = 0
    · rw [if_pos h0]
      exact ⟨noActiveSpecsMsg, rfl,
        fun c x => Ne.symm (mismatchAdvanceMsg_ne_advance_errors c x).2⟩
    · rw [if_neg h0, if_pos (show effectiveResultOf s flag ≠ "" by rw [heff]; decide),
        if_pos heff]
      exact ⟨infraErrorMsg, rfl,
        fun c x => Ne.symm (mismatchAdvanceMsg_ne_advance_errors c x).1⟩
  · intro hlast p m
    rw [checkTestResult, if_neg (show ¬s.lastTestResult = "" by rw [hlast]; decide),
      if_pos (show s.lastTestResult ≠ ExpectedTestResult p m by
        rw [hlast]
        rcases ExpectedTestResult_pass_or_fail p m with he | he <;> rw [he] <;> decide),
      hlast]

/-- C7 witness: a green session with a recorded infrastructure error. -/
theorem errorResult_blocks_advance_witness :
    (("" : String) = "error" ∨ (("" : String) = "" ∧ sessionErr.lastTestResult = "error")) ∧
    ((∃ e, phaseNext sessionErr "" "" = .error e ∧
        ∀ (c x : String), e ≠ mismatchAdvanceMsg c x "error") ∧
     (sessionErr.lastTestResult = "error" → ∀ (p : Phase) (m : Mode),
        checkTestResult sessionErr p m =
          [testResultMismatchMsg "error" (ExpectedTestResult p m)]) ∧
     (∀ (p : Phase) (m : Mode),
        ExpectedTestResult p m = "pass" ∨ ExpectedTestResult p m = "fail")) :=
  ⟨Or.inr ⟨rfl, rfl⟩, errorResult_blocks_advance sessionErr "" "" (Or.inr ⟨rfl, rfl⟩)⟩

/-! C5. -/

/-- `answerReflectionAux` on a list split at the first id match updates
exactly that entry. -/
theorem answerReflectionAux_of_split (pre post : List ReflectionQuestion)
    (x : ReflectionQuestion) (id : Int) (a : String)
    (hpre : ∀ y ∈ pre, y.id ≠ id) (hx : x.id = id) :
    answerReflectionAux (pre ++ x :: post) id a =
      some (pre ++ { x with answer := a } :: post) := by
  induction pre with
  | nil => simp [answerReflectionAux, hx]
  | cons y rest ih =>
    have hy := hpre y (by simp)
    rw [List.cons_append, answerReflectionAux, if_neg (by simp [hy])]
    rw [ih (fun z hz => hpre z (by simp [hz]))]
    rfl

/-- Inversion of a successful `reflectAnswer`: the phase is untouched and
the reflection list is split at the first question carrying the id, whose
answer alone is replaced. -/
theorem reflectAnswer_ok (s : Session) (id : Int) (a now : String) (s1 : Session)
    (h : reflectAnswer s id a now = .ok s1) :
    s1.phase = s.phase ∧
    ∃ pre r post, s.reflections = pre ++ r :: post ∧ (∀ x ∈ pre, x.id ≠ id) ∧
      r.id = id ∧ s1.reflections = pre ++ { r with answer := a } :: post := by
  rw [reflectAnswer] at h
  by_cases h1 : s.phase ≠ PhaseRefactor
  · rw [if_pos h1] at h; exact Except.noConfusion h
  · rw [if_neg h1] at h
    by_cases h2 : a = ""
    · rw [if_pos h2] at h; exact Except.noConfusion h
    · rw [if_neg h2] at h
      cases hv : ValidateAnswer a with
      | error e => rw [hv] at h; exact Except.noConfusion h
      | ok u =>
        rw [hv] at h
        cases hans : s.AnswerReflection id a with
        | error e => rw [hans] at h; exact Except.noConfusion h
        | ok st =>
          rw [hans] at h
          simp only [Except.ok.injEq] at h
          subst h
          rw [Session.AnswerReflection] at hans
          cases haux : answerReflectionAux s.reflections id a with
          | none => rw [haux] at hans; exact Except.noConfusion hans
          | some rs =>
            rw [haux] at hans
            simp only [Except.ok.injEq] at hans
            subst hans
            obtain ⟨pre, r, post, hsp, hpre, hid, hres⟩ :=
              answerReflectionAux_some _ _ _ _ haux
            exact ⟨rfl, pre, r, post, hsp, hpre, hid, hres⟩

/-- C5: the validated reflection-answer operation (the `refactor reflect`
command, which runs `ValidateAnswer` and then `Session.AnswerReflection`)
fails when the id is not among the loaded questions and fails when the
answer has fewer than 5 whitespace-delimited tokens — on failure no
session is produced, so nothing is stored; on success the answer is stored
at that question with all ids and question texts untouched, and
re-answering the same question overwrites the previous answer. -/
theorem reflectAnswer_contract (s : Session) (id : Int) (a now : String)
    (hph : s.phase = PhaseRefactor) :
    ((∀ r ∈ s.reflections, r.id ≠ id) → ∃ e, reflectAnswer s id a now = .error e) ∧
    ((stringFields a).length < MinAnswerWords →
      ∃ e, reflectAnswer s id a now = .error e) ∧
    (∀ s1 : Session, reflectAnswer s id a now = .ok s1 →
      s1.reflections.map (fun r => (r.id, r.question)) =
        s.reflections.map (fun r => (r.id, r.question)) ∧
      ((s1.reflections.find? (fun r => r.id == id)).map (fun r => r.answer)) = some a) ∧
    (∀ (s1 : Session) (a2 now2 : String), reflectAnswer s id a now = .ok s1 →
      ¬(stringFields a2).length < MinAnswerWords →
      ∃ s2, reflectAnswer s1 id a2 now2 = .ok s2 ∧
        ((s2.reflections.find? (fun r => r.id == id)).map (fun r => r.answer)) = some a2) := by
  have hnotne : ¬(s.phase ≠ PhaseRefactor) := not_not_intro hph
  refine ⟨?_, ?_, ?_, ?_⟩
  · intro hids
    rw [reflectAnswer, if_neg hnotne]
    by_cases h2 : a = ""
    · rw [if_pos h2]; exact ⟨_, rfl⟩
    · rw [if_neg h2]
      cases hv : ValidateAnswer a with
      | error e => exact ⟨e, rfl⟩
      | ok u =>
        have hans : s.AnswerReflection id a =
            .error ("reflection question " ++ toString id ++ " not found") := by
          rw [Session.AnswerReflection,
            (answerReflectionAux_none_iff s.reflections id a).mpr hids]
        rw [hans]
        exact ⟨_, rfl⟩
  · intro htok
    rw [reflectAnswer, if_neg hnotne]
    by_cases h2 : a = ""
    · rw [if_pos h2]; exact ⟨_, rfl⟩
    · rw [if_neg h2]
      have hv : ValidateAnswer a = .error ("answer must be at least "
          ++ toString MinAnswerWords ++ " words, got "
          ++ toString ((stringFields a).length)) := by
        rw [ValidateAnswer, if_pos htok]
      rw [hv]
      exact ⟨_, rfl⟩
  · intro s1 h
    obtain ⟨hph1, pre, r, post, hsp, hpre, hid, hres⟩ := reflectAnswer_ok s id a now s1 h
    constructor
    · rw [hres, hsp]
      simp
    · rw [hres, find?_append_of_false _ pre _ (fun x hx => by simp [hpre x hx])]
      rw [List.find?_cons_of_pos _ (by simp [hid])]
      rfl
  · intro s1 a2 now2 h hval2
    obtain ⟨hph1, pre, r, post, hsp, hpre, hid, hres⟩ := reflectAnswer_ok s id a now s1 h
    have ha2 : ¬a2 = "" := by
      intro hh
      apply hval2
      rw [hh]
      decide
    have hv2 : ValidateAnswer a2 = .ok () := by rw [ValidateAnswer, if_neg hval2]
    have hxid : ({ r with answer := a } : ReflectionQuestion).id = id := hid
    have haux2 := answerReflectionAux_of_split pre post { r with answer := a } id a2 hpre hxid
    rw [reflectAnswer, if_neg (not_not_intro (hph1.trans hph)), if_neg ha2, hv2]
    have hans2 : s1.AnswerReflection id a2 =
        .ok { s1 with reflections := pre ++ { r with answer := a2 } :: post } := by
      rw [Session.AnswerReflection, hres, haux2]
    rw [hans2]
    refine ⟨_, rfl, ?_⟩
    show (((pre ++ { r with answer := a2 } :: post).find? (fun r => r.id == id)).map
        (fun r => r.answer)) = some a2
    rw [find?_append_of_false _ pre _ (fun x hx => by simp [hpre x hx])]
    rw [List.find?_cons_of_pos _ (by simp [hid])]
    rfl

/-- C5 witness: answering question 1 of the freshly loaded default
questions with a five-word answer. -/
theorem reflectAnswer_contract_witness :
    sessionRefactor.phase = PhaseRefactor ∧
    (((∀ r ∈ sessionRefactor.reflections, r.id ≠ 1) →
        ∃ e, reflectAnswer sessionRefactor 1 "the tests are already quite descriptive" ""
          = .error e) ∧
     ((stringFields "the tests are already quite descriptive").length < MinAnswerWords →
        ∃ e, reflectAnswer sessionRefactor 1 "the tests are already quite descriptive" ""
          = .error e) ∧
     (∀ s1 : Session,
        reflectAnswer sessionRefactor 1 "the tests are already quite descriptive" ""
          = .ok s1 →
        s1.reflections.map (fun r => (r.id, r.question)) =
          sessionRefactor.reflections.map (fun r => (r.id, r.question)) ∧
        ((s1.reflections.find? (fun r => r.id == 1)).map (fun r => r.answer)) =
          some "the tests are already quite descriptive") ∧
     (∀ (s1 : Session) (a2 now2 : String),
        reflectAnswer sessionRefactor 1 "the tests are already quite descriptive" ""
          = .ok s1 →
        ¬(stringFields a2).length < MinAnswerWords →
        ∃ s2, reflectAnswer s1 1 a2 now2 = .ok s2 ∧
          ((s2.reflections.find? (fun r => r.id == 1)).map (fun r => r.answer)) = some a2)) :=
  ⟨rfl, reflectAnswer_contract sessionRefactor 1 "the tests are already quite descriptive" "" rfl⟩

/-- C10 witness: the contract evaluated on `sessionB` (one active spec). -/
theorem CompleteAllSpecs_idempotent_witness :
    (∀ sp ∈ sessionB.specs, sp.status = SpecStatusActive ∨ sp.status = SpecStatusCompleted) ∧
    ((∀ sp ∈ ((sessionB.CompleteAllSpecs).2).specs, sp.status = SpecStatusCompleted) ∧
     ((sessionB.CompleteAllSpecs).2).ActiveSpecs = [] ∧
     ((sessionB.CompleteAllSpecs).2).CompleteAllSpecs = (0, (sessionB.CompleteAllSpecs).2) ∧
     ((sessionB.CompleteAllSpecs).2).specs.map (fun sp => (sp.id, sp.description)) =
       sessionB.specs.map (fun sp => (sp.id, sp.description)) ∧
     ((sessionB.CompleteAllSpecs).2).specs.length = sessionB.specs.length) :=
  ⟨by decide, CompleteAllSpecs_idempotent sessionB (by decide)⟩

end TddAi
